import Mathlib

/-!
# Verification of the `static-reflect` layout engine

A shallow embedding of the layout metadata computed by the
`#[derive(StaticReflect)]` macro of the DuckLogic/rust-static-reflect
repository, together with proofs about it.

The embedded code is:

* `src/lib/derive/src/internals/fields.rs` — the derive macro.  For a
  structure or union it emits a `const` block that simulates the
  `repr(C)` layout field by field and cross-checks the simulated
  size/alignment against the compiler's ground truth
  (`std::mem::size_of` / `align_of`), panicking on a mismatch.
  We embed the arithmetic that the emitted `const` block performs.
* `src/src/types.rs` — the `TypeInfo` metadata model and its
  `size` / `alignment` queries.

Machine integers (`usize`) are modelled as `Nat`: every quantity involved
is a size/offset/alignment and the Rust code performs no subtraction that
could underflow (the only subtraction is `align - rem` with `rem < align`)
and no arithmetic anywhere near `usize::MAX`, so `Nat` arithmetic agrees
with the `usize` arithmetic of the source.

Errors: the macro reports configuration problems as `syn::Error` values
(carrying a message), and the emitted `const` block reports layout
mismatches by `panic!` during constant evaluation.  Both are modelled by
an `Except DeriveError _` result.
-/

namespace StaticReflect

/-- A Rust type handle, as the derive macro sees a field's type.

The macro never inspects a type beyond (a) whether it is a fixed-length
array `[elem; len]` (`syn::Type::Array`, used by the `opaque_array`
option) and (b) four numeric queries on it:

* `memSizeOf`  — `std::mem::size_of::<T>()`,
* `memAlignOf` — `std::mem::align_of::<T>()`,
* `infoSize`   — `<T as StaticReflect>::TYPE_INFO.size()`,
* `infoAlign`  — `<T as StaticReflect>::TYPE_INFO.alignment()`.

So a non-array type is abstracted by those four numbers (`base`), and an
array type by its element and length.  The `TYPE_INFO` queries of a
well-behaved `StaticReflect` impl agree with the `mem` queries, but
nothing forces them to: an `assume_repr = "T"` substitute is explicitly
trusted rather than verified, and `TypeInfo::Extern`/`TypeInfo::Magic`
descriptors report dummy values (`src/src/types.rs:500,510`), so the four
numbers are kept independent. -/
inductive RustTy : Type where
  | base (memSize memAlign tiSize tiAlign : Nat)
  | array (elem : RustTy) (len : Nat)
deriving DecidableEq

namespace RustTy

/-- `std::mem::size_of` for the modelled type.  For arrays the Rust layout
guarantee is `size_of::<[T; N]>() = N * size_of::<T>()`. -/
def memSizeOf : RustTy → Nat
  | .base s _ _ _ => s
  | .array elem len => len * elem.memSizeOf

/-- `std::mem::align_of` for the modelled type.  For arrays the Rust
layout guarantee is `align_of::<[T; N]>() = align_of::<T>()`. -/
def memAlignOf : RustTy → Nat
  | .base _ a _ _ => a
  | .array elem _ => elem.memAlignOf

/-- `TYPE_INFO.size()` of the type, i.e. the size that the type's
`static_reflect::types::TypeInfo` descriptor reports
(`TypeInfo::size`, `src/src/types.rs:478`).  The crate defines no
`StaticReflect` impl for arrays (there is no array `TypeInfo` variant),
so the `array` case is unreachable for inputs that compile in Rust; we
give it the value a faithful impl would have. -/
def infoSize : RustTy → Nat
  | .base _ _ s _ => s
  | .array elem len => len * elem.infoSize

/-- `TYPE_INFO.alignment()` of the type (`TypeInfo::alignment`,
`src/src/types.rs:504`); see `infoSize` for the `array` case. -/
def infoAlign : RustTy → Nat
  | .base _ _ _ a => a
  | .array elem _ => elem.infoAlign

end RustTy

/-- The per-field options of the derive macro
(`DeriveFieldOptions`, `src/lib/derive/src/internals/fields.rs:12`). -/
structure DeriveFieldOptions where
  /-- `#[reflect(opaque_array)]`: treat this trailing array field as
  opaque; the emitted field exposes the element type. -/
  opaqueArray : Bool
  /-- `#[reflect(assume_repr = "T")]`: expose `T` instead of the declared
  type, trusting it to share the declared type's ABI representation. -/
  assumeRepr : Option RustTy
deriving DecidableEq

/-- `DeriveFieldOptions::default()` (`fields.rs:47`). -/
def DeriveFieldOptions.default : DeriveFieldOptions :=
  { opaqueArray := false, assumeRepr := none }

/-- One field as the macro receives it: its declared type and its parsed
options.  (The field's name and declaration index are threaded through
the macro unchanged and play no role in the layout arithmetic, so they
are omitted from the embedding.) -/
structure FieldIn where
  declared : RustTy
  opts : DeriveFieldOptions
deriving DecidableEq

/-- An error aborting descriptor construction: either a `syn::Error`
raised by the macro itself, or a `panic!` raised while the emitted
`const` block is evaluated. -/
inductive DeriveError where
  | synError (msg : String)
  | constPanic (msg : String)
deriving DecidableEq

/-- The validation at the end of `DeriveFieldOptions::parse`
(`fields.rs:88-92`): `opaque_array` and `assume_repr` on the same field
are rejected when the attribute is parsed, before any layout work. -/
def DeriveFieldOptions.validate (opts : DeriveFieldOptions) :
    Except DeriveError DeriveFieldOptions :=
  if opts.assumeRepr.isSome ∧ opts.opaqueArray then
    .error (.synError "opaque_array is incompatible with assume_repr")
  else
    .ok opts

/-- A field descriptor emitted for a structure field
(`static_reflect::types::FieldDef`, `src/src/types.rs:573`, as
constructed at `fields.rs:416-421`): the exposed `value_type` and the
computed `offset`.  The `name` is carried through unchanged and the
`index` is the position in the emitted list; both are omitted. -/
structure FieldOut where
  valueTy : RustTy
  offset : Nat
deriving DecidableEq

/-- Padding step of the structure engine (`fields.rs:403-411`): advance
`old_offset` to the next multiple of `align` (`align` is
`std::mem::align_of::<original_type>()`, hence positive in any run that
Rust can produce):

    let rem = old_offset % align;
    old_offset + (if rem == 0 { 0 } else { align - rem }) -/
def padOffset (oldOffset align : Nat) : Nat :=
  oldOffset + (if oldOffset % align = 0 then 0 else align - oldOffset % align)

/-- The body of `StructHandler::handle_fields` (`fields.rs:361-430`) for
the remaining fields, given the running offset so far.  Returns the
emitted field descriptors in order together with the final value of
`current_offset`.

Per field, in source order:
1. parse the options (rejecting `opaque_array` + `assume_repr`);
2. if `opaque_array`: reject unless this is the last field, then reject
   unless the declared type is an array, else expose the element type;
3. if `assume_repr = T`: expose `T`;
4. pad the running offset to `align_of::<original_type>()` — the
   *declared* type, even when an option changed the exposed type;
5. emit the field at that offset, then advance the running offset by
   `size_of::<original_type>()`. -/
def structFieldsGo : List FieldIn → Nat → Except DeriveError (List FieldOut × Nat)
  | [], currentOffset => .ok ([], currentOffset)
  | field :: rest, currentOffset =>
    match field.opts.validate with
    | .error e => .error e
    | .ok opts =>
      match (if opts.opaqueArray then
               if rest ≠ [] then
                 Except.error (DeriveError.synError "Opaque array must be last field")
               else
                 match field.declared with
                 | .array elem _ => Except.ok elem
                 | _ => Except.error (DeriveError.synError
                     "Type must be an array to be marked 'opaque_array'")
             else
               Except.ok field.declared : Except DeriveError RustTy) with
      | .error e => .error e
      | .ok exposed0 =>
        match structFieldsGo rest
            (padOffset currentOffset field.declared.memAlignOf + field.declared.memSizeOf) with
        | .error e => .error e
        | .ok (tail, finalOffset) =>
          .ok (⟨(match opts.assumeRepr with
                 | some assumed => assumed
                 | none => exposed0),
                padOffset currentOffset field.declared.memAlignOf⟩ :: tail,
               finalOffset)

/-- `StructHandler::handle_fields` starting from `current_offset = 0`
(`StructHandler::new`, `fields.rs:335-339`). -/
def structHandleFields (fields : List FieldIn) :
    Except DeriveError (List FieldOut × Nat) :=
  structFieldsGo fields 0

/-- The `expected_alignment` loop of `StructHandler::create_static_def`
(`fields.rs:446-459`): starting from `align_of::<()>() = 1`, take the
maximum of `value_type.type_ref().value().alignment()` over the emitted
fields — i.e. the `TYPE_INFO` alignment of each *exposed* type. -/
def structExpectedAlignment (fields : List FieldOut) : Nat :=
  fields.foldl (fun acc f => max acc f.valueTy.infoAlign) 1

/-- The `expected_size` computation of `StructHandler::create_static_def`
(`fields.rs:444-445`), verbatim:

    let current_offset = #current_offset;
    let expected_size = current_offset + current_offset % align_of::<#name>();

where `align_of::<#name>()` is the ground-truth alignment of the type
being derived. -/
def structExpectedSize (currentOffset groundAlign : Nat) : Nat :=
  currentOffset + currentOffset % groundAlign

/-- The emitted structure descriptor
(`static_reflect::types::StructureDef`, `src/src/types.rs:552`):
its `size` and `alignment` are the ground-truth
`size_of::<#name>()` / `align_of::<#name>()` (`fields.rs:438-443`). -/
structure StructureDef where
  fields : List FieldOut
  size : Nat
  alignment : Nat
deriving DecidableEq

/-- The checking tail of `StructHandler::create_static_def`
(`fields.rs:432-468`): build the descriptor from ground truth, compute
the expected size and alignment, and panic on any mismatch. -/
def structCreateStaticDef (fields : List FieldOut) (currentOffset : Nat)
    (groundSize groundAlign : Nat) : Except DeriveError StructureDef :=
  let def_ : StructureDef :=
    { fields := fields, size := groundSize, alignment := groundAlign }
  let expectedSize := structExpectedSize currentOffset groundAlign
  let expectedAlignment := structExpectedAlignment fields
  if def_.size ≠ expectedSize then
    .error (.constPanic "Mismatched size")
  else if def_.alignment ≠ expectedAlignment then
    .error (.constPanic "Mismatched alignments")
  else
    .ok def_

/-- The whole structure pipeline: `handle_fields` (run while the macro
expands, `handle_type` at `fields.rs:151-246`) followed by the emitted
`create_static_def` block (evaluated against the ground-truth size and
alignment of the derived type). -/
def structStaticDef (fields : List FieldIn) (groundSize groundAlign : Nat) :
    Except DeriveError StructureDef :=
  match structHandleFields fields with
  | .error e => .error e
  | .ok (outFields, currentOffset) =>
    structCreateStaticDef outFields currentOffset groundSize groundAlign

/-- A field descriptor emitted for a union field
(`static_reflect::types::UnionFieldDef`, `src/src/types.rs:758`, as
constructed at `fields.rs:515-519`): only the exposed `value_type`
(plus name and index, omitted as before).  Union field descriptors carry
no stored offset. -/
structure UnionFieldOut where
  valueTy : RustTy
deriving DecidableEq

/-- `UnionFieldDef::offset` (`src/src/types.rs:783-785`): the fields of a
union never have any offset, so this is always zero. -/
def UnionFieldOut.offset (_ : UnionFieldOut) : Nat := 0

/-- `UnionTypeHandler::handle_fields` (`fields.rs:494-527`).  Per field:
parse the options (rejecting `opaque_array` + `assume_repr`), reject
`opaque_array` outright, apply `assume_repr` substitution, and emit the
field. -/
def unionHandleFields : List FieldIn → Except DeriveError (List UnionFieldOut)
  | [] => .ok []
  | field :: rest =>
    match field.opts.validate with
    | .error e => .error e
    | .ok opts =>
      if opts.opaqueArray then
        .error (.synError "opaque_array is not supported on unions")
      else
        match unionHandleFields rest with
        | .error e => .error e
        | .ok tail =>
          .ok (⟨(match opts.assumeRepr with
                 | some assumed => assumed
                 | none => field.declared)⟩ :: tail)

/-- The accumulation loop of `UnionTypeHandler::create_static_def`
(`fields.rs:540-557`): starting from `align_of::<()>() = 1` and
`size_of::<()>() = 0`, take — in one pass over the emitted fields — the
maxima of the `TYPE_INFO` alignment and size of each exposed
`value_type`.  Returns `(expected_alignment, expected_size)` before the
final rounding. -/
def unionExpectedRaw (fields : List UnionFieldOut) : Nat × Nat :=
  fields.foldl
    (fun acc f =>
      ((if f.valueTy.infoAlign > acc.1 then f.valueTy.infoAlign else acc.1),
       (if f.valueTy.infoSize > acc.2 then f.valueTy.infoSize else acc.2)))
    (1, 0)

/-- The rounding step of `UnionTypeHandler::create_static_def`
(`fields.rs:558-564`): round `expected_size` up to the next multiple of
`expected_alignment`:

    let rem = expected_size % expected_alignment;
    if rem != 0 { expected_size += expected_alignment - rem; } -/
def roundUpSize (expectedSize expectedAlignment : Nat) : Nat :=
  if expectedSize % expectedAlignment ≠ 0 then
    expectedSize + (expectedAlignment - expectedSize % expectedAlignment)
  else
    expectedSize

/-- The emitted union descriptor
(`static_reflect::types::UntaggedUnionDef`, `src/src/types.rs:738`):
its `size` and `alignment` are the ground truth values
(`fields.rs:534-539`). -/
structure UntaggedUnionDef where
  fields : List UnionFieldOut
  size : Nat
  alignment : Nat
deriving DecidableEq

/-- The checking tail of `UnionTypeHandler::create_static_def`
(`fields.rs:529-573`). -/
def unionCreateStaticDef (fields : List UnionFieldOut)
    (groundSize groundAlign : Nat) : Except DeriveError UntaggedUnionDef :=
  let def_ : UntaggedUnionDef :=
    { fields := fields, size := groundSize, alignment := groundAlign }
  let raw := unionExpectedRaw fields
  let expectedAlignment := raw.1
  let expectedSize := roundUpSize raw.2 expectedAlignment
  if def_.size ≠ expectedSize then
    .error (.constPanic "Mismatched size")
  else if def_.alignment ≠ expectedAlignment then
    .error (.constPanic "Mismatched alignments")
  else
    .ok def_

/-- The whole union pipeline, analogous to `structStaticDef`. -/
def unionStaticDef (fields : List FieldIn) (groundSize groundAlign : Nat) :
    Except DeriveError UntaggedUnionDef :=
  match unionHandleFields fields with
  | .error e => .error e
  | .ok outFields => unionCreateStaticDef outFields groundSize groundAlign

/-! ## The enum path of the derive macro -/

/-- `Repr` (`src/lib/derive/src/internals/mod.rs:12-16`): the parsed
`#[repr(...)]` attribute. -/
inductive ReprKind : Type where
  | c
  | transparent
  | integer (signed : Bool) (bits : Nat)
deriving DecidableEq

/-- One enum variant as the macro sees it for the shape check: whether
`var.fields.is_empty()` holds, i.e. whether the variant is payload-free. -/
structure VariantIn where
  fieldsEmpty : Bool
deriving DecidableEq

/-- `is_c_style_enum` (`fields.rs:247-260`): every variant has an empty
field list. -/
def isCStyleEnum (variants : List VariantIn) : Bool :=
  variants.all (·.fieldsEmpty)

/-- The integer recipe that `enum_static_type` emits: which repr drives
the equivalent integer type of the enum (the actual `IntType` is
computed later, during constant evaluation of the emitted tokens). -/
inductive EnumIntRecipe : Type where
  /-- `#[repr(C)]`: byte width is the ground-truth `size_of` of the enum,
  treated as unsigned. -/
  | reprC
  /-- `#[repr(uN)]` / `#[repr(iN)]`: byte width is `bits / 8` with the
  declared signedness. -/
  | reprInt (signed : Bool) (bits : Nat)
deriving DecidableEq

/-- `enum_static_type` (`fields.rs:261-289`): first match on the repr
(anything other than `repr(C)` or an integer repr is a `syn::Error`),
then accept only C-style (payload-free) enums, rejecting the rest with
the `syn::Error` "Complex enums are currently unsupported". -/
def enumStaticType (variants : List VariantIn) (repr : Option ReprKind) :
    Except DeriveError EnumIntRecipe :=
  match (match repr with
         | some .c => Except.ok EnumIntRecipe.reprC
         | some (.integer signed bits) => Except.ok (EnumIntRecipe.reprInt signed bits)
         | _ => Except.error (DeriveError.synError
             "Enum types must be either #[repr(C)] or #[repr(Int)]")
         : Except DeriveError EnumIntRecipe) with
  | .error e => .error e
  | .ok equivalentInteger =>
    if isCStyleEnum variants then
      .ok equivalentInteger
    else
      .error (.synError "Complex enums are currently unsupported")

/-! ## The `TypeInfo` metadata model (`src/src/types.rs`) -/

/-- `IntSize` (`src/src/types.rs:32-43`). -/
inductive IntSize : Type where
  | byte
  | short
  | int
  | long
deriving DecidableEq

/-- `IntSize::bytes` (`src/src/types.rs:63-65`): the `repr(u8)`
discriminants are 1, 2, 4, 8. -/
def IntSize.bytes : IntSize → Nat
  | .byte => 1
  | .short => 2
  | .int => 4
  | .long => 8

/-- `FloatSize` (`src/src/types.rs:128-138`). -/
inductive FloatSize : Type where
  | single
  | double
deriving DecidableEq

/-- `FloatSize::bytes` (`src/src/types.rs:147-149`): the discriminants
are 4 and 8. -/
def FloatSize.bytes : FloatSize → Nat
  | .single => 4
  | .double => 8

/-- `IntType` (`src/src/types.rs:171-176`). -/
structure IntType where
  size : IntSize
  signed : Bool
deriving DecidableEq

/-- The host environment's answers to the `std::mem` queries that
`TypeInfo::size`/`TypeInfo::alignment` (`src/src/types.rs`) delegate to
the compiler.  Quantities Rust fixes on every platform (`bool`, `()`,
`!`) are hard-coded at their guaranteed values instead. -/
structure Platform where
  /-- `size_of::<*const ()>()`. -/
  ptrSize : Nat
  /-- `align_of::<*const ()>()`. -/
  ptrAlign : Nat
  /-- `size_of::<AsmSlice<()>>()`. -/
  sliceSize : Nat
  /-- `size_of::<AsmStr>()`. -/
  strSize : Nat
  /-- `align_of::<AsmStr>()`. -/
  strAlign : Nat
  /-- `align_of` of the primitive integer of the given width; Rust
  guarantees `iN` and `uN` share their layout, so one function serves
  the signed and unsigned arms of `IntType::align`. -/
  intAlign : IntSize → Nat
  /-- `align_of::<f32>()`. -/
  f32Align : Nat
  /-- `align_of::<f64>()`. -/
  f64Align : Nat

/-- `IntType::align` (`src/src/types.rs:185-197`): an eight-arm match
delegating to `align_of` of the corresponding primitive; the signed and
unsigned arm of each width consult the same platform alignment. -/
def IntType.align (p : Platform) : IntType → Nat
  | ⟨.byte, false⟩ => p.intAlign .byte
  | ⟨.short, false⟩ => p.intAlign .short
  | ⟨.int, false⟩ => p.intAlign .int
  | ⟨.long, false⟩ => p.intAlign .long
  | ⟨.byte, true⟩ => p.intAlign .byte
  | ⟨.short, true⟩ => p.intAlign .short
  | ⟨.int, true⟩ => p.intAlign .int
  | ⟨.long, true⟩ => p.intAlign .long

/-- `DiscriminantValue` (`src/src/types.rs:642-667`).  The `bits` fields
are `u64` in the source; they are modelled as `Nat` (no arithmetic in
the source ever wraps them: the only operation is `+ 1` on a value that
came from a user-written literal). -/
inductive DiscriminantValue : Type where
  | default (declarationIndex : Nat)
  | implicitlyOffset (bits : Nat)
  | explicitInteger (bits : Nat)
deriving DecidableEq

/-- `DiscriminantValue::is_explicit` (`src/src/types.rs:671-673`). -/
def DiscriminantValue.isExplicit : DiscriminantValue → Bool
  | .explicitInteger _ => true
  | _ => false

/-- `DiscriminantValue::bits` (`src/src/types.rs:679-685`). -/
def DiscriminantValue.bits : DiscriminantValue → Nat
  | .default declarationIndex => declarationIndex
  | .implicitlyOffset bits => bits
  | .explicitInteger bits => bits

/-- `CStyleEnumVariant` (`src/src/types.rs:631-638`). -/
structure CStyleEnumVariant where
  index : Nat
  name : String
  discriminant : DiscriminantValue
deriving DecidableEq

/-- `CStyleEnumDef` (`src/src/types.rs:607-616`). -/
structure CStyleEnumDef where
  name : String
  discriminant : IntType
  variants : List CStyleEnumVariant
deriving DecidableEq

/-- `TaggedUnionDef` (`src/src/types.rs:692-710`), restricted to the
components that `TypeInfo::size`/`alignment` consult (the variant list
plays no role in those queries and is omitted). -/
structure TaggedUnionDef where
  name : String
  discriminantType : IntType
  size : Nat
  alignment : Nat
deriving DecidableEq

/-- `TypeInfo` (`src/src/types.rs:400-469`), with every variant of the
source enum (the `builtins` and `never` crate features are enabled by
default, so `Slice`, `Str`, `Optional` and `Never` are present).
`Structure` and `UntaggedUnion` refer to the definition records built by
the derive macro. -/
inductive TypeInfo : Type where
  | unit
  | never
  | bool
  | integer (ty : IntType)
  | float (size : FloatSize)
  | slice (elementType : TypeInfo)
  | str
  | optional (inner : TypeInfo)
  | pointer
  | structureRef (def_ : StructureDef)
  | untaggedUnion (def_ : UntaggedUnionDef)
  | taggedUnion (def_ : TaggedUnionDef)
  | cStyleEnum (def_ : CStyleEnumDef)
  | externRef (name : String)
  | magic (id : String) (extra : Option TypeInfo)

/-- `TypeInfo::size` (`src/src/types.rs:478-502`).  `Optional` hits
`unimplemented!()` in the source — a panic — modelled as `none`; every
other arm returns a value (`some`).  `Magic` and `Extern` return the
dummy sentinel `0xFFFF_FFFF`. -/
def TypeInfo.size (p : Platform) : TypeInfo → Option Nat
  | .unit => some 0
  | .never => some 0
  | .bool => some 1
  | .integer ⟨size, _⟩ => some size.bytes
  | .float size => some size.bytes
  | .slice _ => some p.sliceSize
  | .optional _ => none
  | .pointer => some p.ptrSize
  | .str => some p.strSize
  | .structureRef def_ => some def_.size
  | .untaggedUnion def_ => some def_.size
  | .taggedUnion def_ => some def_.size
  | .cStyleEnum def_ => some def_.discriminant.size.bytes
  | .magic _ _ => some 0xFFFFFFFF
  | .externRef _ => some 0xFFFFFFFF

/-- `TypeInfo::alignment` (`src/src/types.rs:504-525`).  `Slice` and
`Optional` hit `unimplemented!()` — modelled as `none`; `Magic` and
`Extern` return 0. -/
def TypeInfo.alignment (p : Platform) : TypeInfo → Option Nat
  | .unit => some 1
  | .never => some 1
  | .magic _ _ => some 0
  | .externRef _ => some 0
  | .bool => some 1
  | .integer tp => some (tp.align p)
  | .float .single => some p.f32Align
  | .float .double => some p.f64Align
  | .slice _ => none
  | .optional _ => none
  | .pointer => some p.ptrAlign
  | .str => some p.strAlign
  | .structureRef def_ => some def_.alignment
  | .untaggedUnion def_ => some def_.alignment
  | .cStyleEnum def_ => some (def_.discriminant.align p)
  | .taggedUnion def_ => some def_.alignment

/-! ## The discriminant resolver (spec §4.4)

The repository declares `DiscriminantValue` (`src/src/types.rs`) and its
derive test (`src/lib/derive/tests/simple.rs:223-269`, marked
"Currently fails because of #2") expects resolved discriminants, but the
resolver itself — the code that scans a variant list and assigns a
`DiscriminantValue` to each variant — does not exist under `src/`: the
enum path of the derive macro (`enum_static_type`) emits only an integer
`TypeInfo`.  The resolver is therefore modelled from the spec. -/

/-- Modelled from the spec: the "last effective value seen" state of the
Discriminant Resolver (spec §4.4), which is missing from `src/`
(only the `DiscriminantValue` data type and an expecting test exist).
Scanning left to right, starting from "none": an explicit literal sets
the state to that literal; a variant with no literal leaves the state
at "none" when nothing explicit has been seen, and otherwise increments
it (the implicit variant's own effective value). -/
def lastEffectiveValue (state : Option Nat) : List (Option Nat) → Option Nat
  | [] => state
  | some lit :: rest => lastEffectiveValue (some lit) rest
  | none :: rest => lastEffectiveValue (state.map (· + 1)) rest

/-- Modelled from the spec: the Discriminant Resolver of spec §4.4,
which is missing from `src/`.  Input: per variant, the optional explicit
integer literal, in declaration order (`index` counts the declarations,
`state` is the last effective value seen, initially none). -/
def resolveFrom (index : Nat) (state : Option Nat) :
    List (Option Nat) → List DiscriminantValue
  | [] => []
  | some lit :: rest =>
    .explicitInteger lit :: resolveFrom (index + 1) (some lit) rest
  | none :: rest =>
    match state with
    | none => .default index :: resolveFrom (index + 1) none rest
    | some v => .implicitlyOffset (v + 1) :: resolveFrom (index + 1) (some (v + 1)) rest

/-- Modelled from the spec: the Discriminant Resolver run on a whole
variant list (declaration indices from 0, no explicit value seen yet). -/
def resolveDiscriminants (lits : List (Option Nat)) : List DiscriminantValue :=
  resolveFrom 0 none lits

/-! ## Concrete types used as inputs in witnesses and counterexamples

Each is a `base` handle `(memSize, memAlign, tiSize, tiAlign)` on a
64-bit platform; for types with a faithful `StaticReflect` impl the
`TYPE_INFO` numbers equal the `mem` numbers. -/

/-- `u32`. -/
def tyU32 : RustTy := .base 4 4 4 4

/-- `u8` (also usable as `i8` / `bool`: same four numbers). -/
def tyU8 : RustTy := .base 1 1 1 1

/-- A pointer such as `*mut String` on a 64-bit platform. -/
def tyPtr : RustTy := .base 8 8 8 8

/-- Parsed options of a field with no `#[reflect(...)]` attribute
(`DeriveFieldOptions::default`). -/
def optsNone : DeriveFieldOptions := ⟨false, none⟩

/-! ## Claims -/

/-- C10: for `TypeInfo::Extern` and `TypeInfo::Magic`, on every platform
and whatever the name/id/extra, the `size` query returns the sentinel
`0xFFFF_FFFF` and the `alignment` query returns `0` — never a real
layout measurement. -/
theorem externMagic_dummy_size_alignment :
    ∀ (p : Platform) (name id : String) (extra : Option TypeInfo),
      TypeInfo.size p (.externRef name) = some 0xFFFFFFFF ∧
      TypeInfo.alignment p (.externRef name) = some 0 ∧
      TypeInfo.size p (.magic id extra) = some 0xFFFFFFFF ∧
      TypeInfo.alignment p (.magic id extra) = some 0 := by
  intro p name id extra
  exact ⟨rfl, rfl, rfl, rfl⟩

/-- C1 (the failing input): on the struct `{ a: u32, b: u8 }` the
running offset after both fields is 5 and the ground truth assigned by
Rust is size 8, alignment 4 (5 rounded up to the alignment).  The
engine's expected size is `5 + 5 % 4 = 6`: not the round-up of the
running offset (`padOffset 5 4 = 8`), so the generated code panics
"Mismatched size" on this perfectly valid `repr(C)` struct, and the
claimed round-up property fails on the code. -/
theorem structExpectedSize_not_roundUp :
    structHandleFields [⟨tyU32, optsNone⟩, ⟨tyU8, optsNone⟩] =
      .ok ([⟨tyU32, 0⟩, ⟨tyU8, 4⟩], 5) ∧
    structExpectedSize 5 4 = 6 ∧
    padOffset 5 4 = 8 ∧
    structExpectedSize 5 4 ≠ padOffset 5 4 ∧
    structStaticDef [⟨tyU32, optsNone⟩, ⟨tyU8, optsNone⟩] 8 4 =
      .error (.constPanic "Mismatched size") := by
  refine ⟨rfl, rfl, rfl, by decide, rfl⟩

/-- C2: for both layout engines, a size discrepancy between ground
truth and the engine's expected size panics "Mismatched size", an
alignment discrepancy (with the size agreeing) panics
"Mismatched alignments", and in particular a ground-truth size one byte
larger than the expected size always panics "Mismatched size" and never
yields a descriptor. -/
theorem verifier_mismatch_errors :
    ∀ (fields : List FieldOut) (co gs ga : Nat)
      (ufields : List UnionFieldOut) (ugs uga : Nat),
      (gs ≠ structExpectedSize co ga →
        structCreateStaticDef fields co gs ga =
          .error (.constPanic "Mismatched size")) ∧
      (gs = structExpectedSize co ga → ga ≠ structExpectedAlignment fields →
        structCreateStaticDef fields co gs ga =
          .error (.constPanic "Mismatched alignments")) ∧
      (gs = structExpectedSize co ga + 1 →
        structCreateStaticDef fields co gs ga =
          .error (.constPanic "Mismatched size") ∧
        ∀ d, structCreateStaticDef fields co gs ga ≠ .ok d) ∧
      (ugs ≠ roundUpSize (unionExpectedRaw ufields).2 (unionExpectedRaw ufields).1 →
        unionCreateStaticDef ufields ugs uga =
          .error (.constPanic "Mismatched size")) ∧
      (ugs = roundUpSize (unionExpectedRaw ufields).2 (unionExpectedRaw ufields).1 →
        uga ≠ (unionExpectedRaw ufields).1 →
        unionCreateStaticDef ufields ugs uga =
          .error (.constPanic "Mismatched alignments")) ∧
      (ugs = roundUpSize (unionExpectedRaw ufields).2 (unionExpectedRaw ufields).1 + 1 →
        unionCreateStaticDef ufields ugs uga =
          .error (.constPanic "Mismatched size") ∧
        ∀ d, unionCreateStaticDef ufields ugs uga ≠ .ok d) := by
  intro fields co gs ga ufields ugs uga
  refine ⟨?_, ?_, ?_, ?_, ?_, ?_⟩
  · intro h
    simp [structCreateStaticDef, h]
  · intro h1 h2
    simp [structCreateStaticDef, h1, h2]
  · intro h
    have hne : gs ≠ structExpectedSize co ga := by omega
    refine ⟨by simp [structCreateStaticDef, hne], ?_⟩
    intro d
    simp [structCreateStaticDef, hne]
  · intro h
    simp [unionCreateStaticDef, h]
  · intro h1 h2
    simp [unionCreateStaticDef, h1, h2]
  · intro h
    have hne : ugs ≠ roundUpSize (unionExpectedRaw ufields).2 (unionExpectedRaw ufields).1 := by
      omega
    refine ⟨by simp [unionCreateStaticDef, hne], ?_⟩
    intro d
    simp [unionCreateStaticDef, hne]

/-- C2, instantiated: a one-field struct whose ground size is one byte
above the expected size (expected 4, ground 5) aborts with
"Mismatched size". -/
theorem verifier_mismatch_errors_witness :
    structCreateStaticDef [⟨tyU32, 0⟩] 4 5 4 =
      .error (.constPanic "Mismatched size") :=
  ((verifier_mismatch_errors [⟨tyU32, 0⟩] 4 5 4 [] 0 0).2.2.1 (by decide)).1

/-! ## Helper lemmas -/

theorem except_bind_ok {ε α β : Type} (x : Except ε α) (f : α → Except ε β) (b : β) :
    (x >>= f = Except.ok b) ↔ ∃ a, x = Except.ok a ∧ f a = Except.ok b := by
  cases x with
  | error e => simp [Bind.bind, Except.bind]
  | ok a => simp [Bind.bind, Except.bind]

/-- `padOffset` lands on a multiple of the alignment (alignments are
`mem::align_of` results, hence positive). -/
theorem padOffset_mod (off a : Nat) (ha : 0 < a) : padOffset off a % a = 0 := by
  unfold padOffset
  by_cases h : off % a = 0
  · simp [h]
  · have hr : off % a < a := Nat.mod_lt _ ha
    have h1 : (a - off % a) % a = a - off % a := Nat.mod_eq_of_lt (by omega)
    calc (off + (if off % a = 0 then 0 else a - off % a)) % a
        = (off + (a - off % a)) % a := by rw [if_neg h]
      _ = (off % a + (a - off % a) % a) % a := by rw [Nat.add_mod]
      _ = (off % a + (a - off % a)) % a := by rw [h1]
      _ = a % a := by congr 1; omega
      _ = 0 := Nat.mod_self a

theorem le_padOffset (off a : Nat) : off ≤ padOffset off a :=
  Nat.le_add_right _ _

/-- The per-field offsets exactly as the claim states the recurrence:
starting from `running_offset = 0` (`off` here), pad the running offset
to the field's anchor alignment to get the field's offset, then continue
from `offset + size(anchor)`. -/
def offsetsFrom (off : Nat) : List FieldIn → List Nat
  | [] => []
  | f :: rest =>
    let o := padOffset off f.declared.memAlignOf
    o :: offsetsFrom (o + f.declared.memSizeOf) rest

/-- The final running offset of the same recurrence. -/
def finalOffsetFrom (off : Nat) : List FieldIn → Nat
  | [] => off
  | f :: rest =>
    let o := padOffset off f.declared.memAlignOf
    finalOffsetFrom (o + f.declared.memSizeOf) rest

theorem offsetsFrom_length (fields : List FieldIn) :
    ∀ off, (offsetsFrom off fields).length = fields.length := by
  induction fields with
  | nil => intro off; rfl
  | cons f rest ih => intro off; simp [offsetsFrom, ih]

/-- Whenever `structFieldsGo` succeeds, the emitted offsets and the
final running offset are those of the recurrence (whatever the options
did to the exposed types, the offset arithmetic only consults the
declared anchor type). -/
theorem structFieldsGo_offsets (fields : List FieldIn) :
    ∀ (off : Nat) (outs : List FieldOut) (fin : Nat),
      structFieldsGo fields off = .ok (outs, fin) →
      outs.map FieldOut.offset = offsetsFrom off fields ∧
      fin = finalOffsetFrom off fields := by
  induction fields with
  | nil =>
    intro off outs fin h
    simp only [structFieldsGo, Except.ok.injEq, Prod.mk.injEq] at h
    simp [← h.1, ← h.2, offsetsFrom, finalOffsetFrom]
  | cons f rest ih =>
    intro off outs fin h
    rw [structFieldsGo] at h
    split at h
    · exact absurd h (by simp)
    · split at h
      · exact absurd h (by simp)
      · split at h
        · exact absurd h (by simp)
        · rename_i opts hv exposed0 hexp tail finalOffset hrec
          simp only [Except.ok.injEq, Prod.mk.injEq] at h
          obtain ⟨houts, hfin⟩ := h
          have hrec2 := ih (padOffset off f.declared.memAlignOf + f.declared.memSizeOf)
            tail finalOffset hrec
          subst houts hfin
          simp [offsetsFrom, finalOffsetFrom, hrec2.1, hrec2.2]

/-- Every offset produced by the recurrence is at least the starting
running offset. -/
theorem offsetsFrom_ge (fields : List FieldIn) :
    ∀ (off : Nat), ∀ x ∈ offsetsFrom off fields, off ≤ x := by
  induction fields with
  | nil => intro off x hx; simp [offsetsFrom] at hx
  | cons f rest ih =>
    intro off x hx
    simp only [offsetsFrom, List.mem_cons] at hx
    rcases hx with rfl | hx
    · exact le_padOffset _ _
    · have := ih _ x hx
      have h2 := le_padOffset off f.declared.memAlignOf
      omega

theorem offsetsFrom_pairwise (fields : List FieldIn) :
    ∀ (off : Nat), (offsetsFrom off fields).Pairwise (· ≤ ·) := by
  induction fields with
  | nil => intro off; simp [offsetsFrom]
  | cons f rest ih =>
    intro off
    simp only [offsetsFrom]
    refine List.Pairwise.cons ?_ (ih _)
    intro x hx
    have := offsetsFrom_ge rest _ x hx
    omega

theorem offsetsFrom_aligned (fields : List FieldIn) :
    ∀ (off : Nat) (i : Nat) (hi : i < fields.length)
      (hi2 : i < (offsetsFrom off fields).length),
      0 < (fields.get ⟨i, hi⟩).declared.memAlignOf →
      (offsetsFrom off fields).get ⟨i, hi2⟩ %
        (fields.get ⟨i, hi⟩).declared.memAlignOf = 0 := by
  induction fields with
  | nil =>
    intro off i hi hi2 hpos
    exact absurd hi (by simp)
  | cons f rest ih =>
    intro off i hi hi2 hpos
    cases i with
    | zero => simpa [offsetsFrom] using padOffset_mod off f.declared.memAlignOf hpos
    | succ j =>
      have hj : j < rest.length := by simpa using hi
      have hj2 : j < (offsetsFrom (padOffset off f.declared.memAlignOf +
          f.declared.memSizeOf) rest).length := by
        simpa [offsetsFrom_length] using hj
      simpa [offsetsFrom] using
        ih (padOffset off f.declared.memAlignOf + f.declared.memSizeOf)
          j hj hj2 (by simpa using hpos)

/-- C3: when the structure engine accepts a field list, the emitted
offsets are exactly those of the claimed recurrence from
`running_offset = 0` (`offset(i) = padOffset(running, align(anchor_i))`,
then `running = offset(i) + size(anchor_i)`), and consequently — the
anchor alignments being positive, as every `mem::align_of` result is —
each emitted offset is a multiple of its field's anchor alignment, and
the offsets are non-decreasing in declaration order. -/
theorem structOffsets_follow_recurrence (fields : List FieldIn)
    (outs : List FieldOut) (fin : Nat)
    (hok : structHandleFields fields = .ok (outs, fin))
    (hpos : ∀ f ∈ fields, 0 < f.declared.memAlignOf) :
    outs.map FieldOut.offset = offsetsFrom 0 fields ∧
    fin = finalOffsetFrom 0 fields ∧
    (∀ (i : Nat) (hi : i < fields.length) (hi2 : i < (outs.map FieldOut.offset).length),
      (outs.map FieldOut.offset).get ⟨i, hi2⟩ %
        (fields.get ⟨i, hi⟩).declared.memAlignOf = 0) ∧
    (outs.map FieldOut.offset).Pairwise (· ≤ ·) := by
  obtain ⟨h1, h2⟩ := structFieldsGo_offsets fields 0 outs fin hok
  refine ⟨h1, h2, ?_, ?_⟩
  · intro i hi hi2
    have hi3 : i < (offsetsFrom 0 fields).length := h1 ▸ hi2
    have e := List.get_of_eq h1 ⟨i, hi2⟩
    rw [e]
    exact offsetsFrom_aligned fields 0 i hi hi3 (hpos _ (List.get_mem fields i hi))
  · rw [h1]; exact offsetsFrom_pairwise fields 0

/-- C3, instantiated on the struct `{ a: u32, b: u8 }`: the engine emits
offsets `[0, 4]`, which follow the recurrence. -/
theorem structOffsets_follow_recurrence_witness :
    ([⟨tyU32, 0⟩, ⟨tyU8, 4⟩] : List FieldOut).map FieldOut.offset =
      offsetsFrom 0 [⟨tyU32, optsNone⟩, ⟨tyU8, optsNone⟩] :=
  (structOffsets_follow_recurrence [⟨tyU32, optsNone⟩, ⟨tyU8, optsNone⟩]
    [⟨tyU32, 0⟩, ⟨tyU8, 4⟩] 5 rfl (by decide)).1

/-- Processing a field list splits at any point, provided no field of
the first part carries `opaque_array` (that option inspects whether the
field is last in the *whole* list). -/
theorem structFieldsGo_append (pre : List FieldIn) :
    ∀ (tailF : List FieldIn) (off : Nat) (outs : List FieldOut) (m : Nat),
      (∀ f ∈ pre, f.opts.opaqueArray = false) →
      structFieldsGo pre off = .ok (outs, m) →
      structFieldsGo (pre ++ tailF) off =
        (match structFieldsGo tailF m with
         | .error e => .error e
         | .ok pr => .ok (outs ++ pr.1, pr.2)) := by
  induction pre with
  | nil =>
    intro tailF off outs m _ h
    simp only [structFieldsGo, Except.ok.injEq, Prod.mk.injEq] at h
    obtain ⟨h1, h2⟩ := h
    subst h1 h2
    simp only [List.nil_append]
    cases htail : structFieldsGo tailF off with
    | error e => simp
    | ok pr => simp
  | cons f rest ih =>
    intro tailF off outs m hpre h
    have hf : f.opts.opaqueArray = false := hpre f (by simp)
    have hrest : ∀ g ∈ rest, g.opts.opaqueArray = false := by
      intro g hg
      exact hpre g (by simp [hg])
    have hv : f.opts.validate = .ok f.opts := by
      unfold DeriveFieldOptions.validate
      rw [if_neg (by simp [hf])]
    simp only [structFieldsGo, hv, hf, Bool.false_eq_true, if_false] at h
    cases hrec : structFieldsGo rest
        (padOffset off f.declared.memAlignOf + f.declared.memSizeOf) with
    | error e =>
      rw [hrec] at h
      exact absurd h (by simp)
    | ok pr =>
      rw [hrec] at h
      obtain ⟨tail1, m1⟩ := pr
      simp only [Except.ok.injEq, Prod.mk.injEq] at h
      obtain ⟨houts, hm⟩ := h
      subst houts hm
      show structFieldsGo (f :: (rest ++ tailF)) off = _
      simp only [structFieldsGo, hv, hf, Bool.false_eq_true, if_false]
      rw [ih tailF _ tail1 m1 hrest hrec]
      cases htail : structFieldsGo tailF m1 with
      | error e => simp
      | ok pr2 => simp

/-- C5: a trailing `opaque_array` field of declared type `[elem; n]` is
emitted with exposed type `elem`, but the offset/size bookkeeping uses
the whole array as anchor: the final running offset (which feeds the
expected-size computation) advances past the field's offset by
`n * size_of(elem)` bytes. -/
theorem opaqueArray_trailing_field (pre : List FieldIn) (elem : RustTy) (n : Nat)
    (outs : List FieldOut) (m : Nat)
    (hpre : ∀ f ∈ pre, f.opts.opaqueArray = false)
    (hok : structFieldsGo pre 0 = .ok (outs, m)) :
    structHandleFields (pre ++ [⟨RustTy.array elem n, ⟨true, none⟩⟩]) =
      .ok (outs ++ [⟨elem, padOffset m elem.memAlignOf⟩],
           padOffset m elem.memAlignOf + n * elem.memSizeOf) := by
  unfold structHandleFields
  rw [structFieldsGo_append pre [⟨RustTy.array elem n, ⟨true, none⟩⟩] 0 outs m hpre hok]
  have hlast : structFieldsGo [⟨RustTy.array elem n, ⟨true, none⟩⟩] m =
      .ok ([⟨elem, padOffset m elem.memAlignOf⟩],
           padOffset m elem.memAlignOf + n * elem.memSizeOf) := rfl
  rw [hlast]

/-- C5, instantiated on the test struct `OpaqueArray`
(`src/lib/derive/tests/simple.rs:271-278`): `first: u8` (with
`assume_repr = "i8"`), then `#[reflect(opaque_array)] array: [*mut String; 42]`.
The array field is exposed as the 8-byte pointer type at offset 8, and
the final running offset is `8 + 42 * 8 = 344`. -/
theorem opaqueArray_trailing_field_witness :
    structHandleFields [⟨tyU8, ⟨false, some tyU8⟩⟩,
                        ⟨RustTy.array tyPtr 42, ⟨true, none⟩⟩] =
      .ok ([⟨tyU8, 0⟩, ⟨tyPtr, 8⟩], 344) := by
  have h := opaqueArray_trailing_field [⟨tyU8, ⟨false, some tyU8⟩⟩] tyPtr 42
    [⟨tyU8, 0⟩] 1 (by decide) rfl
  rw [show ([⟨tyU8, ⟨false, some tyU8⟩⟩] ++
      [⟨RustTy.array tyPtr 42, ⟨true, none⟩⟩] : List FieldIn) =
      [⟨tyU8, ⟨false, some tyU8⟩⟩, ⟨RustTy.array tyPtr 42, ⟨true, none⟩⟩] from rfl] at h
  rw [h]
  rfl

theorem validate_ok {o r : DeriveFieldOptions} (h : o.validate = .ok r) :
    r = o ∧ ¬(o.assumeRepr.isSome = true ∧ o.opaqueArray = true) := by
  unfold DeriveFieldOptions.validate at h
  by_cases hc : o.assumeRepr.isSome ∧ o.opaqueArray
  · rw [if_pos hc] at h
    exact absurd h (by simp)
  · rw [if_neg hc] at h
    injection h with h
    exact ⟨h.symm, by simpa using hc⟩

/-- The exposed (`value_type`) type of a field on the engine's success
path: the `assume_repr` substitute if present, else the array element
for an `opaque_array` field, else the declared type itself. -/
def exposedTypeOf (f : FieldIn) : RustTy :=
  match f.opts.assumeRepr with
  | some assumed => assumed
  | none =>
    if f.opts.opaqueArray then
      match f.declared with
      | .array elem _ => elem
      | t => t
    else f.declared

/-- Whenever the structure engine accepts a field list, the emitted
`value_type`s are the exposed types of the input fields, in order. -/
theorem structFieldsGo_valueTys (fields : List FieldIn) :
    ∀ (off : Nat) (outs : List FieldOut) (fin : Nat),
      structFieldsGo fields off = .ok (outs, fin) →
      outs.map FieldOut.valueTy = fields.map exposedTypeOf := by
  induction fields with
  | nil =>
    intro off outs fin h
    simp only [structFieldsGo, Except.ok.injEq, Prod.mk.injEq] at h
    simp [← h.1]
  | cons f rest ih =>
    intro off outs fin h
    rw [structFieldsGo] at h
    split at h
    · exact absurd h (by simp)
    · split at h
      · exact absurd h (by simp)
      · split at h
        · exact absurd h (by simp)
        · rename_i s1 opts hv s2 exposed0 hexp s3 tail finalOffset hrec
          obtain ⟨rfl, hnc⟩ := validate_ok hv
          simp only [Except.ok.injEq, Prod.mk.injEq] at h
          obtain ⟨houts, hfin⟩ := h
          subst houts
          have htail := ih _ tail finalOffset hrec
          simp only [List.map]
          rw [htail]
          congr 1
          show (match f.opts.assumeRepr with
                | some assumed => assumed
                | none => exposed0) = exposedTypeOf f
          unfold exposedTypeOf
          cases har : f.opts.assumeRepr with
          | some assumed => rfl
          | none =>
            simp only []
            split at hexp
            · split at hexp
              · exact absurd hexp (by simp)
              · rename_i hop hne
                rw [if_pos hop]
                split at hexp
                · rename_i elem len
                  injection hexp with hexp
                  simp [← hexp]
                · exact absurd hexp (by simp)
            · rename_i hop
              rw [if_neg hop]
              injection hexp with hexp
              exact hexp.symm

/-- The structural alignment as the claim describes it: the maximum of
the anchor (declared) types' `mem::align_of`, defaulting to unit
alignment (1) with no fields. -/
def anchorStructuralAlignment (fields : List FieldIn) : Nat :=
  fields.foldl (fun acc f => max acc f.declared.memAlignOf) 1

/-- C6 (amended): the structural alignment checked by the verifier is
the maximum over all fields of the `TYPE_INFO` alignment of the field's
*exposed* `value_type` — the `assume_repr` substitute when present, not
the original declared type — defaulting to unit alignment (1) when
there are no fields. -/
theorem structExpectedAlignment_fromExposed :
    structExpectedAlignment [] = 1 ∧
    ∀ (fields : List FieldIn) (outs : List FieldOut) (fin : Nat),
      structHandleFields fields = .ok (outs, fin) →
      structExpectedAlignment outs =
        fields.foldl (fun acc f => max acc (exposedTypeOf f).infoAlign) 1 := by
  refine ⟨rfl, ?_⟩
  intro fields outs fin h
  have hv := structFieldsGo_valueTys fields 0 outs fin h
  unfold structExpectedAlignment
  calc outs.foldl (fun acc f => max acc f.valueTy.infoAlign) 1
      = (outs.map FieldOut.valueTy).foldl (fun acc t => max acc t.infoAlign) 1 := by
        rw [List.foldl_map]
    _ = (fields.map exposedTypeOf).foldl (fun acc t => max acc t.infoAlign) 1 := by
        rw [hv]
    _ = fields.foldl (fun acc f => max acc (exposedTypeOf f).infoAlign) 1 := by
        rw [List.foldl_map]

/-- C6, instantiated: the one-field struct
`{ n: u32 }` with `#[reflect(assume_repr = "*mut ()")]`. -/
theorem structExpectedAlignment_fromExposed_witness :
    structExpectedAlignment [⟨tyPtr, 0⟩] =
      [(⟨tyU32, ⟨false, some tyPtr⟩⟩ : FieldIn)].foldl
        (fun acc f => max acc (exposedTypeOf f).infoAlign) 1 :=
  structExpectedAlignment_fromExposed.2 [⟨tyU32, ⟨false, some tyPtr⟩⟩] [⟨tyPtr, 0⟩] 4 rfl

/-- C6 counterexample: a `u32` field (anchor alignment 4) with
`assume_repr` substituting a pointer-like type whose descriptor reports
alignment 8.  The verifier's structural alignment is 8, the claimed
max-over-anchor-alignments is 4. -/
theorem structAlignment_not_anchor :
    structHandleFields [⟨tyU32, ⟨false, some tyPtr⟩⟩] = .ok ([⟨tyPtr, 0⟩], 4) ∧
    structExpectedAlignment [⟨tyPtr, 0⟩] = 8 ∧
    anchorStructuralAlignment [⟨tyU32, ⟨false, some tyPtr⟩⟩] = 4 ∧
    structExpectedAlignment [⟨tyPtr, 0⟩] ≠
      anchorStructuralAlignment [⟨tyU32, ⟨false, some tyPtr⟩⟩] :=
  ⟨rfl, rfl, rfl, by decide⟩

theorem roundUpSize_eq_padOffset (s a : Nat) : roundUpSize s a = padOffset s a := by
  unfold roundUpSize padOffset
  by_cases h : s % a = 0
  · simp [h]
  · simp [h]

theorem le_roundUpSize (s a : Nat) : s ≤ roundUpSize s a := by
  rw [roundUpSize_eq_padOffset]
  exact le_padOffset s a

theorem roundUpSize_mod (s a : Nat) (ha : 0 < a) : roundUpSize s a % a = 0 := by
  rw [roundUpSize_eq_padOffset]
  exact padOffset_mod s a ha

/-- The union accumulation loop only grows both components of its
accumulator. -/
theorem unionFold_acc_le (fields : List UnionFieldOut) :
    ∀ (acc : Nat × Nat),
      acc.1 ≤ (fields.foldl
        (fun acc f =>
          ((if f.valueTy.infoAlign > acc.1 then f.valueTy.infoAlign else acc.1),
           (if f.valueTy.infoSize > acc.2 then f.valueTy.infoSize else acc.2))) acc).1 ∧
      acc.2 ≤ (fields.foldl
        (fun acc f =>
          ((if f.valueTy.infoAlign > acc.1 then f.valueTy.infoAlign else acc.1),
           (if f.valueTy.infoSize > acc.2 then f.valueTy.infoSize else acc.2))) acc).2 := by
  induction fields with
  | nil => intro acc; exact ⟨le_refl _, le_refl _⟩
  | cons f rest ih =>
    intro acc
    simp only [List.foldl_cons]
    constructor
    · refine le_trans ?_ (ih _).1
      by_cases h : f.valueTy.infoAlign > acc.1
      · simp only [h, if_true]
        omega
      · simp [h]
    · refine le_trans ?_ (ih _).2
      by_cases h : f.valueTy.infoSize > acc.2
      · simp only [h, if_true]
        omega
      · simp [h]

/-- Every field's reported size is bounded by the accumulated maximum. -/
theorem unionFold_size_le (fields : List UnionFieldOut) :
    ∀ (acc : Nat × Nat) (f : UnionFieldOut), f ∈ fields →
      f.valueTy.infoSize ≤ (fields.foldl
        (fun acc f =>
          ((if f.valueTy.infoAlign > acc.1 then f.valueTy.infoAlign else acc.1),
           (if f.valueTy.infoSize > acc.2 then f.valueTy.infoSize else acc.2))) acc).2 := by
  induction fields with
  | nil =>
    intro acc f hf
    exact absurd hf (by simp)
  | cons g rest ih =>
    intro acc f hf
    simp only [List.foldl_cons]
    rcases List.mem_cons.mp hf with rfl | hf2
    · refine le_trans ?_ (unionFold_acc_le rest _).2
      by_cases h : f.valueTy.infoSize > acc.2
      · simp only [h, if_true]
        omega
      · simp only [h, if_false]
        omega
    · exact ih _ f hf2

theorem unionExpectedRaw_fst_pos (fields : List UnionFieldOut) :
    0 < (unionExpectedRaw fields).1 :=
  lt_of_lt_of_le Nat.one_pos (unionFold_acc_le fields (1, 0)).1

theorem unionCreate_ok_iff (fields : List UnionFieldOut) (gs ga : Nat)
    (d : UntaggedUnionDef) :
    unionCreateStaticDef fields gs ga = .ok d ↔
      gs = roundUpSize (unionExpectedRaw fields).2 (unionExpectedRaw fields).1 ∧
      ga = (unionExpectedRaw fields).1 ∧
      d = ⟨fields, gs, ga⟩ := by
  unfold unionCreateStaticDef
  by_cases h1 : gs = roundUpSize (unionExpectedRaw fields).2 (unionExpectedRaw fields).1
  · by_cases h2 : ga = (unionExpectedRaw fields).1
    · simp only [h1, h2, ne_eq, not_true_eq_false, if_false, Except.ok.injEq]
      constructor
      · intro h
        exact ⟨trivial, trivial, h.symm⟩
      · rintro ⟨-, -, rfl⟩
        rfl
    · simp [h1, h2]
  · simp [h1]

/-- C7 (amended): every union field descriptor reports offset 0; the
empty union defaults to unit alignment (1) and unit size (0); and for
every verified union the reported size equals the maximum of the
fields' *exposed* descriptor sizes rounded up to the alignment (the
maximum of the exposed descriptor alignments), hence is at least every
field's reported size and is a multiple of the alignment. -/
theorem unionLayout_properties :
    (∀ f : UnionFieldOut, f.offset = 0) ∧
    unionExpectedRaw [] = (1, 0) ∧
    ∀ (fields : List FieldIn) (gs ga : Nat) (d : UntaggedUnionDef),
      unionStaticDef fields gs ga = .ok d →
      d.alignment = (unionExpectedRaw d.fields).1 ∧
      d.size = roundUpSize (unionExpectedRaw d.fields).2 (unionExpectedRaw d.fields).1 ∧
      (∀ f ∈ d.fields, f.valueTy.infoSize ≤ d.size) ∧
      d.size % d.alignment = 0 := by
  refine ⟨fun f => rfl, rfl, ?_⟩
  intro fields gs ga d h
  unfold unionStaticDef at h
  cases hh : unionHandleFields fields with
  | error e =>
    rw [hh] at h
    exact absurd h (by simp)
  | ok outs =>
    rw [hh] at h
    obtain ⟨h1, h2, rfl⟩ := (unionCreate_ok_iff outs gs ga d).mp h
    refine ⟨h2, by simpa using h1, ?_, ?_⟩
    · intro f hf
      calc f.valueTy.infoSize ≤ (unionExpectedRaw outs).2 :=
            unionFold_size_le outs (1, 0) f hf
        _ ≤ roundUpSize (unionExpectedRaw outs).2 (unionExpectedRaw outs).1 :=
            le_roundUpSize _ _
        _ = gs := h1.symm
    · show gs % ga = 0
      rw [h1, h2]
      exact roundUpSize_mod _ _ (unionExpectedRaw_fst_pos outs)

/-- C7, instantiated on the one-field union `{ n: u32 }` with ground
truth size 4, alignment 4. -/
theorem unionLayout_properties_witness :
    (⟨[⟨tyU32⟩], 4, 4⟩ : UntaggedUnionDef).size %
      (⟨[⟨tyU32⟩], 4, 4⟩ : UntaggedUnionDef).alignment = 0 :=
  (unionLayout_properties.2.2 [⟨tyU32, optsNone⟩] 4 4 ⟨[⟨tyU32⟩], 4, 4⟩ rfl).2.2.2

/-- The union expected size/alignment as the claim describes them: from
the anchor (declared) types. -/
def anchorUnionAlignment (fields : List FieldIn) : Nat :=
  fields.foldl (fun acc f => max acc f.declared.memAlignOf) 1

/-- Maximum anchor size, rounded up to the anchor alignment, as the
claim describes the union's expected size. -/
def anchorUnionExpectedSize (fields : List FieldIn) : Nat :=
  roundUpSize (fields.foldl (fun acc f => max acc f.declared.memSizeOf) 0)
    (anchorUnionAlignment fields)

/-- C7 counterexample: the union `{ n: u32 }` where the field carries
`assume_repr` substituting a pointer-like type (descriptor size 8,
alignment 8).  The engine accepts ground truth (8, 8) — computed from
the exposed descriptor — while the claimed anchor-based expected size
is `roundUp(4, 4) = 4` and the claimed anchor-based alignment is 4. -/
theorem unionSize_not_anchor :
    unionStaticDef [⟨tyU32, ⟨false, some tyPtr⟩⟩] 8 8 = .ok ⟨[⟨tyPtr⟩], 8, 8⟩ ∧
    anchorUnionExpectedSize [⟨tyU32, ⟨false, some tyPtr⟩⟩] = 4 ∧
    anchorUnionAlignment [⟨tyU32, ⟨false, some tyPtr⟩⟩] = 4 ∧
    (⟨[⟨tyPtr⟩], 8, 8⟩ : UntaggedUnionDef).size ≠
      anchorUnionExpectedSize [⟨tyU32, ⟨false, some tyPtr⟩⟩] :=
  ⟨rfl, rfl, rfl, by decide⟩

/-- Whether a type handle is a fixed-length array (`syn::Type::Array`). -/
def RustTy.isArrayTy : RustTy → Bool
  | .array _ _ => true
  | _ => false

/-- A structure field list with misapplied options, as the claim lists
them, scanning the fields in order: some field has `opaque_array`
together with `assume_repr`, or `opaque_array` while not last, or
`opaque_array` on a non-array declared type. -/
def structMisconfigured : List FieldIn → Prop
  | [] => False
  | f :: rest =>
    (f.opts.opaqueArray = true ∧
      (f.opts.assumeRepr.isSome = true ∨ rest ≠ [] ∨ f.declared.isArrayTy = false)) ∨
    structMisconfigured rest

/-- A union field list with misapplied options: some field carries
`opaque_array` (on its own — never supported on unions — or together
with `assume_repr`). -/
def unionMisconfigured (fields : List FieldIn) : Prop :=
  ∃ f ∈ fields, f.opts.opaqueArray = true

theorem validate_error {o : DeriveFieldOptions} {e : DeriveError}
    (h : o.validate = .error e) :
    e = .synError "opaque_array is incompatible with assume_repr" ∧
    o.assumeRepr.isSome = true ∧ o.opaqueArray = true := by
  unfold DeriveFieldOptions.validate at h
  by_cases hc : o.assumeRepr.isSome ∧ o.opaqueArray
  · rw [if_pos hc] at h
    injection h with h
    exact ⟨h.symm, by simpa using hc⟩
  · rw [if_neg hc] at h
    exact absurd h (by simp)

theorem structFieldsGo_ok_iff (fields : List FieldIn) :
    ∀ off, (∃ r, structFieldsGo fields off = .ok r) ↔ ¬ structMisconfigured fields := by
  induction fields with
  | nil =>
    intro off
    simp [structFieldsGo, structMisconfigured]
  | cons f rest ih =>
    intro off
    by_cases hboth : f.opts.assumeRepr.isSome = true ∧ f.opts.opaqueArray = true
    · have hv : f.opts.validate =
          .error (.synError "opaque_array is incompatible with assume_repr") := by
        unfold DeriveFieldOptions.validate
        rw [if_pos (by simpa using hboth)]
      constructor
      · rintro ⟨r, hr⟩
        rw [structFieldsGo, hv] at hr
        exact absurd hr (by simp)
      · intro hnm
        exact absurd (Or.inl ⟨hboth.2, Or.inl hboth.1⟩) hnm
    · have hv : f.opts.validate = .ok f.opts := by
        unfold DeriveFieldOptions.validate
        rw [if_neg (by simpa using hboth)]
      by_cases hop : f.opts.opaqueArray = true
      · have hassume : f.opts.assumeRepr = none := by
          cases hs : f.opts.assumeRepr with
          | none => rfl
          | some t => exact absurd ⟨by simp [hs], hop⟩ hboth
        by_cases hrest : rest = []
        · subst hrest
          cases hdecl : f.declared with
          | array elem len =>
            constructor
            · intro _
              rintro (⟨-, h1 | h1 | h1⟩ | h2)
              · simp [hassume] at h1
              · exact h1 rfl
              · rw [hdecl] at h1
                exact absurd h1 (by simp [RustTy.isArrayTy])
              · exact h2.elim
            · intro _
              refine ⟨([⟨elem, padOffset off f.declared.memAlignOf⟩],
                       padOffset off f.declared.memAlignOf + f.declared.memSizeOf), ?_⟩
              rw [structFieldsGo, hv]
              simp [hop, hdecl, hassume, structFieldsGo]
          | base a b c d =>
            constructor
            · rintro ⟨r, hr⟩
              rw [structFieldsGo, hv] at hr
              simp [hop, hdecl, structFieldsGo] at hr
            · intro hnm
              refine absurd (Or.inl ⟨hop, Or.inr (Or.inr ?_)⟩) hnm
              rw [hdecl]
              rfl
        · constructor
          · rintro ⟨r, hr⟩
            rw [structFieldsGo, hv] at hr
            simp [hop, hrest] at hr
          · intro hnm
            exact absurd (Or.inl ⟨hop, Or.inr (Or.inl hrest)⟩) hnm
      · have hopf : f.opts.opaqueArray = false := by
          cases hq : f.opts.opaqueArray with
          | false => rfl
          | true => exact absurd hq hop
        constructor
        · rintro ⟨r, hr⟩
          rw [structFieldsGo, hv] at hr
          simp only [hopf, Bool.false_eq_true, if_false] at hr
          rintro (⟨h1, -⟩ | h2)
          · rw [hopf] at h1
            exact absurd h1 (by simp)
          · cases hrec : structFieldsGo rest
                (padOffset off f.declared.memAlignOf + f.declared.memSizeOf) with
            | error e =>
              rw [hrec] at hr
              exact absurd hr (by simp)
            | ok pr =>
              exact absurd h2 (((ih _).mp ⟨pr, hrec⟩))
        · intro hnm
          have hnr : ¬ structMisconfigured rest := fun h => hnm (Or.inr h)
          obtain ⟨⟨outs, fin⟩, hr⟩ :=
            (ih (padOffset off f.declared.memAlignOf + f.declared.memSizeOf)).mpr hnr
          refine ⟨(⟨(match f.opts.assumeRepr with
                     | some assumed => assumed
                     | none => f.declared),
                    padOffset off f.declared.memAlignOf⟩ :: outs, fin), ?_⟩
          rw [structFieldsGo, hv]
          simp only [hopf, Bool.false_eq_true, if_false]
          rw [hr]

theorem unionHandleFields_ok_iff (fields : List FieldIn) :
    (∃ r, unionHandleFields fields = .ok r) ↔ ¬ unionMisconfigured fields := by
  induction fields with
  | nil => simp [unionHandleFields, unionMisconfigured]
  | cons f rest ih =>
    by_cases hboth : f.opts.assumeRepr.isSome = true ∧ f.opts.opaqueArray = true
    · have hv : f.opts.validate =
          .error (.synError "opaque_array is incompatible with assume_repr") := by
        unfold DeriveFieldOptions.validate
        rw [if_pos (by simpa using hboth)]
      constructor
      · rintro ⟨r, hr⟩
        rw [unionHandleFields, hv] at hr
        exact absurd hr (by simp)
      · intro hnm
        exact absurd ⟨f, by simp, hboth.2⟩ hnm
    · have hv : f.opts.validate = .ok f.opts := by
        unfold DeriveFieldOptions.validate
        rw [if_neg (by simpa using hboth)]
      by_cases hop : f.opts.opaqueArray = true
      · constructor
        · rintro ⟨r, hr⟩
          rw [unionHandleFields, hv] at hr
          simp [hop] at hr
        · intro hnm
          exact absurd ⟨f, by simp, hop⟩ hnm
      · have hopf : f.opts.opaqueArray = false := by
          cases hq : f.opts.opaqueArray with
          | false => rfl
          | true => exact absurd hq hop
        constructor
        · rintro ⟨r, hr⟩
          rw [unionHandleFields, hv] at hr
          simp only [hopf, Bool.false_eq_true, if_false] at hr
          rintro ⟨g, hg, hgo⟩
          rcases List.mem_cons.mp hg with rfl | hg2
          · rw [hopf] at hgo
            exact absurd hgo (by simp)
          · cases hrec : unionHandleFields rest with
            | error e =>
              rw [hrec] at hr
              exact absurd hr (by simp)
            | ok tail =>
              exact absurd ⟨g, hg2, hgo⟩ (ih.mp ⟨tail, hrec⟩)
        · intro hnm
          have hnr : ¬ unionMisconfigured rest := by
            rintro ⟨g, hg, hgo⟩
            exact hnm ⟨g, by simp [hg], hgo⟩
          obtain ⟨tail, hr⟩ := ih.mpr hnr
          refine ⟨⟨(match f.opts.assumeRepr with
                    | some assumed => assumed
                    | none => f.declared)⟩ :: tail, ?_⟩
          rw [unionHandleFields, hv]
          simp only [hopf, Bool.false_eq_true, if_false]
          rw [hr]

theorem structFieldsGo_error_syn (fields : List FieldIn) :
    ∀ off e, structFieldsGo fields off = .error e →
      ∃ msg, e = DeriveError.synError msg := by
  induction fields with
  | nil =>
    intro off e h
    exact absurd h (by simp [structFieldsGo])
  | cons f rest ih =>
    intro off e h
    rw [structFieldsGo] at h
    split at h
    · injection h with h
      rename_i e0 hv
      exact ⟨_, h.symm ▸ (validate_error hv).1⟩
    · split at h
      · rename_i hexp
        injection h with h
        subst h
        split at hexp
        · split at hexp
          · injection hexp with hexp
            exact ⟨_, hexp.symm⟩
          · split at hexp
            · exact absurd hexp (by simp)
            · injection hexp with hexp
              exact ⟨_, hexp.symm⟩
        · exact absurd hexp (by simp)
      · split at h
        · injection h with h
          rename_i hrec
          exact h ▸ ih _ _ hrec
        · exact absurd h (by simp)

theorem unionHandleFields_error_syn (fields : List FieldIn) :
    ∀ e, unionHandleFields fields = .error e →
      ∃ msg, e = DeriveError.synError msg := by
  induction fields with
  | nil =>
    intro e h
    exact absurd h (by simp [unionHandleFields])
  | cons f rest ih =>
    intro e h
    rw [unionHandleFields] at h
    split at h
    · injection h with h
      rename_i e0 hv
      exact ⟨_, h.symm ▸ (validate_error hv).1⟩
    · split at h
      · injection h with h
        exact ⟨_, h.symm⟩
      · split at h
        · injection h with h
          rename_i hrec
          exact h ▸ ih _ hrec
        · exact absurd h (by simp)

/-- C8: field handling fails exactly on a misapplied option —
`opaque_array` on a non-last struct field, `opaque_array` on a
non-array declared type, `opaque_array` anywhere in a union, or
`opaque_array` together with `assume_repr` on one field — and every
such failure is a `syn::Error` (the macro's configuration-error
channel, never a layout panic); any field list free of these
misconfigurations passes option validation. -/
theorem optionValidation_exact :
    (∀ fields : List FieldIn,
      (∃ r, structHandleFields fields = .ok r) ↔ ¬ structMisconfigured fields) ∧
    (∀ fields : List FieldIn,
      (∃ r, unionHandleFields fields = .ok r) ↔ ¬ unionMisconfigured fields) ∧
    (∀ (fields : List FieldIn) (e : DeriveError),
      structHandleFields fields = .error e → ∃ msg, e = DeriveError.synError msg) ∧
    (∀ (fields : List FieldIn) (e : DeriveError),
      unionHandleFields fields = .error e → ∃ msg, e = DeriveError.synError msg) :=
  ⟨fun fields => structFieldsGo_ok_iff fields 0,
   unionHandleFields_ok_iff,
   fun fields => structFieldsGo_error_syn fields 0,
   fun fields => unionHandleFields_error_syn fields⟩

/-- C8, instantiated: a lone trailing `opaque_array` field of array type
is accepted, so it is not a misconfiguration. -/
theorem optionValidation_exact_witness :
    ¬ structMisconfigured [⟨RustTy.array tyPtr 42, ⟨true, none⟩⟩] :=
  (optionValidation_exact.1 [⟨RustTy.array tyPtr 42, ⟨true, none⟩⟩]).mp
    ⟨([⟨tyPtr, 0⟩], 336), rfl⟩

/-- C9 (amended): an enumeration with a payload-carrying variant never
yields a descriptor; when its repr is `C` or an explicit integer repr it
is rejected with the unsupported-shape error
"Complex enums are currently unsupported" (with any other repr the repr
check rejects it first, with a different `syn::Error`); and whatever the
repr, a successful result is only produced for all-payload-free
(C-style) enumerations. -/
theorem enumPayload_never_ok :
    ∀ (variants : List VariantIn) (repr : Option ReprKind),
      (isCStyleEnum variants = false →
        (∀ r, enumStaticType variants repr ≠ .ok r) ∧
        ((repr = some .c ∨ ∃ s b, repr = some (.integer s b)) →
          enumStaticType variants repr =
            .error (.synError "Complex enums are currently unsupported"))) ∧
      (∀ r, enumStaticType variants repr = .ok r → isCStyleEnum variants = true) := by
  intro variants repr
  cases repr with
  | none =>
    refine ⟨fun hf => ⟨fun r h => by simp [enumStaticType] at h, fun hrepr => ?_⟩,
            fun r h => by simp [enumStaticType] at h⟩
    rcases hrepr with h | ⟨s, b, h⟩ <;> exact absurd h (by simp)
  | some rk =>
    cases rk with
    | transparent =>
      refine ⟨fun hf => ⟨fun r h => by simp [enumStaticType] at h, fun hrepr => ?_⟩,
              fun r h => by simp [enumStaticType] at h⟩
      rcases hrepr with h | ⟨s, b, h⟩ <;> simp at h
    | c =>
      refine ⟨fun hf => ⟨fun r h => ?_, fun _ => ?_⟩, fun r h => ?_⟩
      · rw [enumStaticType] at h
        simp [hf] at h
      · rw [enumStaticType]
        simp [hf]
      · by_cases hc : isCStyleEnum variants
        · exact hc
        · rw [enumStaticType] at h
          simp [hc] at h
    | integer s b =>
      refine ⟨fun hf => ⟨fun r h => ?_, fun _ => ?_⟩, fun r h => ?_⟩
      · rw [enumStaticType] at h
        simp [hf] at h
      · rw [enumStaticType]
        simp [hf]
      · by_cases hc : isCStyleEnum variants
        · exact hc
        · rw [enumStaticType] at h
          simp [hc] at h

/-- C9, instantiated: one payload-carrying variant under `repr(C)` is
rejected with the unsupported-shape error. -/
theorem enumPayload_never_ok_witness :
    enumStaticType [⟨false⟩] (some .c) =
      .error (.synError "Complex enums are currently unsupported") :=
  ((enumPayload_never_ok [⟨false⟩] (some .c)).1 rfl).2 (Or.inl rfl)

/-- C9 counterexample: a payload-carrying enumeration whose repr is
neither `C` nor an integer (here `repr(transparent)`) is rejected by the
repr check, whose `syn::Error` is not the unsupported-shape error the
claim promises for every payload-carrying enumeration. -/
theorem enumPayload_reprGate_first :
    enumStaticType [⟨false⟩] (some .transparent) =
      .error (.synError "Enum types must be either #[repr(C)] or #[repr(Int)]") ∧
    DeriveError.synError "Enum types must be either #[repr(C)] or #[repr(Int)]" ≠
      DeriveError.synError "Complex enums are currently unsupported" :=
  ⟨rfl, by decide⟩

/-! ## C4: the discriminant resolver -/

theorem lastEffectiveValue_some (rest : List (Option Nat)) :
    ∀ v, ∃ w, lastEffectiveValue (some v) rest = some w := by
  induction rest with
  | nil => intro v; exact ⟨v, rfl⟩
  | cons x tail ih =>
    intro v
    cases x with
    | some lit => exact ih lit
    | none => exact ih (v + 1)

theorem resolveFrom_getElem (lits : List (Option Nat)) :
    ∀ (idx : Nat) (st : Option Nat) (i : Nat),
      (resolveFrom idx st lits)[i]? =
        (lits[i]?).map (fun lit =>
          match lit, lastEffectiveValue st (lits.take i) with
          | some b, _ => DiscriminantValue.explicitInteger b
          | none, none => DiscriminantValue.default (idx + i)
          | none, some v => DiscriminantValue.implicitlyOffset (v + 1)) := by
  induction lits with
  | nil => intro idx st i; simp [resolveFrom]
  | cons x rest ih =>
    intro idx st i
    cases x with
    | some lit =>
      cases i with
      | zero => simp [resolveFrom, lastEffectiveValue]
      | succ j =>
        simp only [resolveFrom, List.getElem?_cons_succ, List.take_succ_cons,
          lastEffectiveValue]
        rw [ih (idx + 1) (some lit) j]
        rw [show idx + (j + 1) = idx + 1 + j by omega]
    | none =>
      cases i with
      | zero =>
        cases st with
        | none => simp [resolveFrom, lastEffectiveValue]
        | some v => simp [resolveFrom, lastEffectiveValue]
      | succ j =>
        cases st with
        | none =>
          simp only [resolveFrom, List.getElem?_cons_succ, List.take_succ_cons,
            lastEffectiveValue, Option.map_none']
          rw [ih (idx + 1) none j]
          rw [show idx + (j + 1) = idx + 1 + j by omega]
        | some v =>
          simp only [resolveFrom, List.getElem?_cons_succ, List.take_succ_cons,
            lastEffectiveValue, Option.map_some']
          rw [ih (idx + 1) (some (v + 1)) j]
          rw [show idx + (j + 1) = idx + 1 + j by omega]

/-- C4: the resolver assigns, scanning left to right:
`ExplicitInteger{bits}` to a variant with an explicit literal;
`Default{declaration_index}` to a literal-free variant preceded by no
explicit value (the tracked last-effective-value is still none, which
happens exactly when every earlier variant is literal-free); and
`ImplicitlyOffset{last_effective_value + 1}` to a literal-free variant
that follows an explicit one.  In particular
`[Zero, Two=2, Eight=8, Four=4, Implicit]` resolves to
`[Default 0, ExplicitInteger 2, ExplicitInteger 8, ExplicitInteger 4,
ImplicitlyOffset 5]`. -/
theorem resolveDiscriminants_spec :
    (∀ (lits : List (Option Nat)) (i : Nat),
      (resolveDiscriminants lits)[i]? =
        (lits[i]?).map (fun lit =>
          match lit, lastEffectiveValue none (lits.take i) with
          | some b, _ => DiscriminantValue.explicitInteger b
          | none, none => DiscriminantValue.default i
          | none, some v => DiscriminantValue.implicitlyOffset (v + 1))) ∧
    (∀ lits : List (Option Nat),
      lastEffectiveValue none lits = none ↔ ∀ x ∈ lits, x = none) ∧
    resolveDiscriminants [none, some 2, some 8, some 4, none] =
      [DiscriminantValue.default 0, DiscriminantValue.explicitInteger 2,
       DiscriminantValue.explicitInteger 8, DiscriminantValue.explicitInteger 4,
       DiscriminantValue.implicitlyOffset 5] := by
  refine ⟨?_, ?_, rfl⟩
  · intro lits i
    have h := resolveFrom_getElem lits 0 none i
    simpa [Nat.zero_add] using h
  · intro lits
    induction lits with
    | nil => simp [lastEffectiveValue]
    | cons x rest ih =>
      cases x with
      | some lit =>
        obtain ⟨w, hw⟩ := lastEffectiveValue_some rest lit
        simp [lastEffectiveValue, hw]
      | none =>
        simpa [lastEffectiveValue] using ih

end StaticReflect
